import Mathlib

/-!
Verification of the `di` dependency-injection container (package `di`,
files `container.go`, `registration.go`, the lifetime/scope file and the
errors file) as a shallow embedding.

Modelling conventions:
* Go `reflect.Type` values are type tags (`Nat`).  Type-level relations
  (`AssignableTo`, `Implements`, interface kind, error-shapedness) are
  supplied by a `TypeEnv` parameter, since they depend on the ambient Go
  type universe.
* Go interface values are `Value`: `nilV` is the nil interface, `obj i`
  is a non-nil value whose identity is `i` (pointer identity).  A non-nil
  error value returned as the second result of a factory is also a
  `Value` (`obj code`), converted by `toGoError`.
* A Go factory (`any` holding a function) is `GoFunc`: its declared
  parameter types `ins`, declared result types `outs`, and its behaviour
  `call`, which receives the resolved arguments plus a fresh allocation
  identity and yields the list of results of `reflect.Call`.  A non-func
  `any` (or a nil function) is `none : Option GoFunc`.
* The container state `Container` carries the three maps of the Go
  struct plus: `scopeHeap`, the heap of live `Scope` objects (a `Scope`
  pointer is a `Nat`); `nextId`, the allocation counter; and `callLog`,
  an instrumentation log recording one entry (the registration key) per
  factory body actually executed.  Maps are association lists where
  insertion prepends and lookup takes the most recent binding, which is
  observationally the Go map write.
* Go panics (failed type assertion on a nil result, `reflect.Call` with
  a zero `Value` argument, invoking a nil factory) are the `panicked`
  outcome.  Recursion in `resolve` is fuel-indexed (`outOfFuel` is the
  artifact of that embedding and is never reached with enough fuel).
-/

namespace DI

/-- Association-list lookup (Go map read). -/
def alook {α β : Type} [DecidableEq α] : List (α × β) → α → Option β
  | [], _ => none
  | (a, b) :: l, x => if a = x then some b else alook l x

/-- Association-list insert (Go map write): prepend; `alook` sees the newest. -/
def ains {α β : Type} (l : List (α × β)) (a : α) (b : β) : List (α × β) :=
  (a, b) :: l

@[simp] theorem alook_nil {α β : Type} [DecidableEq α] (x : α) :
    alook ([] : List (α × β)) x = none := rfl

@[simp] theorem alook_cons {α β : Type} [DecidableEq α] (a : α) (b : β) (l : List (α × β)) (x : α) :
    alook ((a, b) :: l) x = if a = x then some b else alook l x := rfl

theorem alook_ains {α β : Type} [DecidableEq α] (l : List (α × β)) (a : α) (b : β) (x : α) :
    alook (ains l a b) x = if a = x then some b else alook l x := rfl

/-- `Lifetime` from the lifetime/scope file: Transient | Singleton | Scoped. -/
inductive Lifetime : Type where
  | Transient
  | Singleton
  | Scoped
deriving DecidableEq, Repr

/-- `Lifetime.String` from the lifetime/scope file. -/
def Lifetime.toString : Lifetime → String
  | .Transient => "Transient"
  | .Singleton => "Singleton"
  | .Scoped => "Scoped"

/-- A Go interface value: the nil interface, or a non-nil value with identity. -/
inductive Value : Type where
  | nilV : Value
  | obj : Nat → Value
deriving DecidableEq, Repr

/-- The error taxonomy from the errors file.  `userError` stands for an
error value produced by a user factory (its payload is the identity of
that error value). -/
inductive GoError : Type where
  | notRegistered (typ : Nat)
  | circularDependency (chain : List Nat)
  | resolutionFailed (typ : Nat) (cause : GoError)
  | invalidFactory (typ : Nat) (msg : String)
  | userError (code : Nat)
deriving DecidableEq, Repr

/-- A Go function value used as a factory: declared parameter types,
declared result types, whether the declared second result type's
reflect Kind is one on which `Value.IsNil` is defined (chan, func,
interface, map, pointer or slice — `reflect.Value.IsNil` panics on any
other kind, e.g. a struct type implementing `error` through a value
receiver, which `validateFactory` accepts), and the results
`reflect.Call` yields given the argument values and a fresh allocation
identity. -/
structure GoFunc : Type where
  ins : List Nat
  outs : List Nat
  sndNilable : Bool := true
  call : List Value → Nat → List Value

/-- `registrationKey` from registration.go. -/
structure RegKey : Type where
  typ : Nat
  name : String
deriving DecidableEq, Repr

/-- `registration` from registration.go.  The Go field `instance` (an
`any`, nil by default) is `inst` here (`instance` is a Lean keyword). -/
structure Registration : Type where
  targetType : Nat
  implType : Option Nat := none
  factory : Option GoFunc := none
  lifetime : Lifetime := .Transient
  inst : Value := .nilV
  name : String := ""

/-- `RegistrationOption` values from registration.go. -/
inductive RegOption : Type where
  | withLifetime (l : Lifetime)
  | asSingleton
  | asTransient
  | asScoped
  | withName (n : String)

/-- Applying one option to a registration (the bodies of `WithLifetime`,
`AsSingleton`, `AsTransient`, `AsScoped`, `WithName`). -/
def applyOpt (r : Registration) : RegOption → Registration
  | .withLifetime l => { r with lifetime := l }
  | .asSingleton => { r with lifetime := .Singleton }
  | .asTransient => { r with lifetime := .Transient }
  | .asScoped => { r with lifetime := .Scoped }
  | .withName n => { r with name := n }

/-- The `for _, opt := range opts { opt(reg) }` loop. -/
def applyOpts (r : Registration) (opts : List RegOption) : Registration :=
  opts.foldl applyOpt r

/-- The Go type universe facts `validateFactory` consults via reflection. -/
structure TypeEnv : Type where
  assignableTo : Nat → Nat → Bool
  isInterface : Nat → Bool
  implementsT : Nat → Nat → Bool
  implementsError : Nat → Bool

/-- `Container` from container.go, together with the heap of live `Scope`
objects, the allocation counter and the factory-invocation log. -/
structure Container : Type where
  registrations : List (RegKey × Registration) := []
  singletons : List (RegKey × Value) := []
  scopes : List (String × Nat) := []
  scopeHeap : List (Nat × List (RegKey × Value)) := []
  nextId : Nat := 0
  callLog : List RegKey := []

/-- `New()`. -/
def New : Container := {}

/-- `Scope.get`: read a scope object's instance cache. -/
def scopeGet (c : Container) (sid : Nat) (key : RegKey) : Option Value :=
  alook ((alook c.scopeHeap sid).getD []) key

/-- `Scope.set`: write a scope object's instance cache. -/
def scopeSet (c : Container) (sid : Nat) (key : RegKey) (v : Value) : Container :=
  { c with
      scopeHeap := ains c.scopeHeap sid (ains ((alook c.scopeHeap sid).getD []) key v) }

/-- `validateFactory` from container.go, with the checks in source order:
not a function; zero returns; first return not assignable (nor, for an
interface target, implementing); second return not error-shaped when
there are two; more than two returns. -/
def validateFactory (env : TypeEnv) (targetType : Nat) (factory : Option GoFunc) :
    Option GoError :=
  match factory with
  | none => some (.invalidFactory targetType "factory must be a function")
  | some f =>
    if f.outs.length = 0 then
      some (.invalidFactory targetType "factory must return a value")
    else
      let returnType := f.outs.headD 0
      if ¬(env.assignableTo returnType targetType = true ∨
            (env.isInterface targetType = true ∧ env.implementsT returnType targetType = true)) then
        some (.invalidFactory targetType "factory return type is not assignable to target type")
      else if f.outs.length = 2 ∧ ¬env.implementsError (f.outs.getD 1 0) = true then
        some (.invalidFactory targetType "second return value must be error")
      else if f.outs.length > 2 then
        some (.invalidFactory targetType "factory cannot return more than 2 values")
      else
        none

/-- The registration record `Register` builds before applying options. -/
def regBase (targetType : Nat) (factory : Option GoFunc) : Registration :=
  { targetType := targetType, factory := factory, lifetime := .Transient }

/-- `Register[T]` from container.go: build the registration, apply the
options, validate the factory, then insert under `(type, name)`. -/
def Register (env : TypeEnv) (c : Container) (targetType : Nat)
    (factory : Option GoFunc) (opts : List RegOption) : Option GoError × Container :=
  let reg := applyOpts (regBase targetType factory) opts
  match validateFactory env targetType factory with
  | some e => (some e, c)
  | none =>
    let key : RegKey := ⟨targetType, reg.name⟩
    (none, { c with registrations := ains c.registrations key reg })

/-- `RegisterInstance[T]` from container.go: insert the registration with
the instance set and `lifetime = Singleton`, and eagerly populate the
singleton cache. -/
def RegisterInstance (c : Container) (targetType : Nat) (inst : Value)
    (opts : List RegOption) : Container :=
  let reg := applyOpts
    { targetType := targetType, inst := inst, lifetime := .Singleton } opts
  let key : RegKey := ⟨targetType, reg.name⟩
  { c with registrations := ains c.registrations key reg,
           singletons := ains c.singletons key inst }

/-- `CreateScope` from container.go: allocate a fresh `Scope` object and
bind it in the container's scope table (replacing any previous scope of
the same name). -/
def CreateScope (c : Container) (name : String) : Nat × Container :=
  let sid := c.nextId
  (sid, { c with nextId := c.nextId + 1,
                 scopeHeap := ains c.scopeHeap sid [],
                 scopes := ains c.scopes name sid })

/-- Convert a non-nil second factory result into the `error` it carries. -/
def toGoError : Value → GoError
  | .nilV => .userError 0
  | .obj code => .userError code

/-- Outcome of an operation that can fail or panic.  `outOfFuel` is the
fuel-embedding artifact. -/
inductive Outcome (α : Type) : Type where
  | ok (a : α)
  | fail (e : GoError)
  | panicked
  | outOfFuel
deriving DecidableEq, Repr

/-- The parameter-resolution loop of `invokeFactory`: resolve each
declared parameter type, unnamed, threading the scope, chain and state.
`res` is the recursive entry into `Container.resolve` (at one fuel less,
see `resolve`). -/
def resolveParams
    (res : Nat → String → Option Nat → List Nat → Container → Outcome Value × Container) :
    List Nat → Option Nat → List Nat → Container → Outcome (List Value) × Container
  | [], _, _, c => (.ok [], c)
  | p :: ps, scope, chain, c =>
    match res p "" scope chain c with
    | (.ok v, c1) =>
      match resolveParams res ps scope chain c1 with
      | (.ok vs, c2) => (.ok (v :: vs), c2)
      | (.fail e, c2) => (.fail e, c2)
      | (.panicked, c2) => (.panicked, c2)
      | (.outOfFuel, c2) => (.outOfFuel, c2)
    | (.fail e, c1) => (.fail e, c1)
    | (.panicked, c1) => (.panicked, c1)
    | (.outOfFuel, c1) => (.outOfFuel, c1)

/-- `Container.invokeFactory` from container.go: resolve all parameters,
call the factory, handle the `(T)` and `(T, error)` result shapes.  The
`key` argument is instrumentation only: it is appended to the call log
exactly when the factory body runs.  A nil factory value panics inside
`reflect`; a nil interface among the arguments makes `reflect.Call`
panic (zero `Value` argument); and with two results the
`results[1].IsNil()` check itself panics when the declared second
result type's Kind does not support `IsNil` (the `sndNilable` field),
before any value is inspected. -/
def invokeFactory
    (res : Nat → String → Option Nat → List Nat → Container → Outcome Value × Container)
    (key : RegKey) (factory : Option GoFunc) (scope : Option Nat) (chain : List Nat)
    (c : Container) : Outcome Value × Container :=
  match factory with
  | none => (.panicked, c)
  | some f =>
    match resolveParams res f.ins scope chain c with
    | (.ok args, c1) =>
      if args.any (fun a => a = Value.nilV) then (.panicked, c1)
      else
        let results := f.call args c1.nextId
        let c2 := { c1 with nextId := c1.nextId + 1, callLog := key :: c1.callLog }
        if results.length = 0 then
          (.fail (.invalidFactory 0 "factory must return at least one value"), c2)
        else if results.length = 2 ∧ f.sndNilable = false then
          (.panicked, c2)
        else if results.length = 2 ∧ results.getD 1 .nilV ≠ .nilV then
          (.fail (toGoError (results.getD 1 .nilV)), c2)
        else
          (.ok (results.headD .nilV), c2)
    | (.fail e, c1) => (.fail e, c1)
    | (.panicked, c1) => (.panicked, c1)
    | (.outOfFuel, c1) => (.outOfFuel, c1)

/-- `Container.resolve` from container.go, fuel-indexed.  In source
order: registry lookup; cycle check over `chain`; append to `chain`;
pre-registered instance short-circuit; singleton cache; scope cache;
factory invocation; lifetime-directed store. -/
def resolve : Nat → Nat → String → Option Nat → List Nat → Container →
    Outcome Value × Container
  | 0, _, _, _, _, c => (.outOfFuel, c)
  | fuel + 1, targetType, name, scope, chain, c =>
    let key : RegKey := ⟨targetType, name⟩
    match alook c.registrations key with
    | none => (.fail (.notRegistered targetType), c)
    | some reg =>
      if targetType ∈ chain then
        (.fail (.circularDependency (chain ++ [targetType])), c)
      else
        let chain2 := chain ++ [targetType]
        if reg.inst ≠ Value.nilV then (.ok reg.inst, c)
        else
          match (if reg.lifetime = .Singleton then alook c.singletons key else none) with
          | some v => (.ok v, c)
          | none =>
            match (if reg.lifetime = .Scoped then
                     scope.bind (fun sid => scopeGet c sid key) else none) with
            | some v => (.ok v, c)
            | none =>
              match invokeFactory (resolve fuel) key reg.factory scope chain2 c with
              | (.ok inst, c1) =>
                let c2 :=
                  match reg.lifetime with
                  | .Singleton => { c1 with singletons := ains c1.singletons key inst }
                  | .Scoped =>
                    match scope with
                    | some sid => scopeSet c1 sid key inst
                    | none => c1
                  | .Transient => c1
                (.ok inst, c2)
              | (.fail e, c1) => (.fail (.resolutionFailed targetType e), c1)
              | (.panicked, c1) => (.panicked, c1)
              | (.outOfFuel, c1) => (.outOfFuel, c1)

/-- The `result.(T)` type assertion at the end of `ResolveNamed` /
`ResolveInScope`.  Asserting the nil interface to any `T` panics.  For
a non-nil result, Go panics exactly when the result's dynamic type does
not satisfy the assertion: identity when `T` is a concrete type (so a
factory validated through mere assignability — e.g. a `[]int`-returning
factory registered for a named slice type — panics here), and
implementation when `T` is an interface.  Values in this model carry no
dynamic type, so this non-nil panic case is not representable here; it
is instead delimited by the registration-level condition `AssertSafe`,
under which the dynamic type of every value that can reach this
assertion provably satisfies it in Go, making the nil-only model exact
on that region (see `AssertSafe` and claim C9). -/
def typeAssert : Outcome Value → Outcome Value
  | .ok v => if v = Value.nilV then .panicked else .ok v
  | r => r

/-- `ResolveNamed[T]` from container.go. -/
def ResolveNamed (c : Container) (fuel targetType : Nat) (name : String) :
    Outcome Value × Container :=
  let r := resolve fuel targetType name none [] c
  (typeAssert r.1, r.2)

/-- `Resolve[T]` from container.go. -/
def Resolve (c : Container) (fuel targetType : Nat) : Outcome Value × Container :=
  ResolveNamed c fuel targetType ""

/-- `ResolveInScope[T]` from container.go (the scope may be nil). -/
def ResolveInScope (c : Container) (fuel targetType : Nat) (scope : Option Nat) :
    Outcome Value × Container :=
  let r := resolve fuel targetType "" scope [] c
  (typeAssert r.1, r.2)

/-- `MustResolve[T]`: panic on any resolution error. -/
def MustResolve (c : Container) (fuel targetType : Nat) : Outcome Value × Container :=
  let r := Resolve c fuel targetType
  match r.1 with
  | .fail _ => (.panicked, r.2)
  | x => (x, r.2)

/-- `HasNamed[T]` from container.go. -/
def HasNamed (c : Container) (targetType : Nat) (name : String) : Bool :=
  (alook c.registrations ⟨targetType, name⟩).isSome

/-- `Has[T]` from container.go. -/
def Has (c : Container) (targetType : Nat) : Bool :=
  HasNamed c targetType ""

/-- `Container.Clear` from container.go: reset the registry, the
singleton cache and the scope table in one operation.  Live `Scope`
objects held by callers (the heap) are unaffected, as in Go. -/
def Clear (c : Container) : Container :=
  { c with registrations := [], singletons := [], scopes := [] }

/-- Number of logged invocations of the factory registered under `k`. -/
def kcount (k : RegKey) : List RegKey → Nat
  | [] => 0
  | a :: l => (if a = k then 1 else 0) + kcount k l

@[simp] theorem kcount_nil (k : RegKey) : kcount k [] = 0 := rfl

@[simp] theorem kcount_cons (k a : RegKey) (l : List RegKey) :
    kcount k (a :: l) = (if a = k then 1 else 0) + kcount k l := rfl

@[simp] theorem scopeGet_scopeSet_same (c : Container) (sid : Nat) (key : RegKey)
    (v : Value) (k : RegKey) :
    scopeGet (scopeSet c sid key v) sid k = if key = k then some v else scopeGet c sid k := by
  simp [scopeGet, scopeSet, ains]

theorem scopeHeap_scopeSet_other (c : Container) (sid : Nat) (key : RegKey)
    (v : Value) (sid' : Nat) (h : sid ≠ sid') :
    alook (scopeSet c sid key v).scopeHeap sid' = alook c.scopeHeap sid' := by
  simp [scopeSet, ains, h]

theorem scopeGet_congr {c c' : Container} (sid : Nat) (k : RegKey)
    (h : alook c'.scopeHeap sid = alook c.scopeHeap sid) :
    scopeGet c' sid k = scopeGet c sid k := by
  simp [scopeGet, h]

/-- Frame property of one resolution step relative to the supplied scope
`sc` and the ancestor chain `ch`: the registry and the scope table are
untouched; the singleton cache and the supplied scope's cache change
only by inserting entries for suitably registered keys; scopes other
than the supplied one are untouched; keys whose type is in `ch` are
fully protected, including their invocation count. -/
structure Frame (sc : Option Nat) (ch : List Nat) (c c' : Container) : Prop where
  regs : c'.registrations = c.registrations
  names : c'.scopes = c.scopes
  sing : ∀ k, alook c'.singletons k = alook c.singletons k ∨
      (alook c.singletons k = none ∧
        ∃ reg, alook c.registrations k = some reg ∧ reg.lifetime = .Singleton)
  singCh : ∀ k : RegKey, k.typ ∈ ch → alook c'.singletons k = alook c.singletons k
  heapO : ∀ sid, some sid ≠ sc → alook c'.scopeHeap sid = alook c.scopeHeap sid
  heapS : ∀ sid k, sc = some sid →
      scopeGet c' sid k = scopeGet c sid k ∨
      (scopeGet c sid k = none ∧
        ∃ reg, alook c.registrations k = some reg ∧ reg.lifetime = .Scoped)
  heapCh : ∀ sid (k : RegKey), sc = some sid → k.typ ∈ ch →
      scopeGet c' sid k = scopeGet c sid k
  nid : c.nextId ≤ c'.nextId
  logCh : ∀ k : RegKey, k.typ ∈ ch → kcount k c'.callLog = kcount k c.callLog

theorem Frame.refl (sc : Option Nat) (ch : List Nat) (c : Container) : Frame sc ch c c :=
  ⟨rfl, rfl, fun _ => Or.inl rfl, fun _ _ => rfl, fun _ _ => rfl,
   fun _ _ _ => Or.inl rfl, fun _ _ _ _ => rfl, Nat.le_refl _, fun _ _ => rfl⟩

theorem Frame.trans {sc : Option Nat} {ch : List Nat} {c1 c2 c3 : Container}
    (f : Frame sc ch c1 c2) (g : Frame sc ch c2 c3) : Frame sc ch c1 c3 := by
  refine ⟨g.regs.trans f.regs, g.names.trans f.names, ?_, ?_, ?_, ?_, ?_,
    Nat.le_trans f.nid g.nid, ?_⟩
  · intro k
    rcases g.sing k with h2 | ⟨h2, reg, hreg, hl⟩
    · rcases f.sing k with h1 | ⟨h1, reg, hreg, hl⟩
      · exact Or.inl (h2.trans h1)
      · exact Or.inr ⟨h1, reg, hreg, hl⟩
    · rcases f.sing k with h1 | ⟨h1, reg', hreg', hl'⟩
      · exact Or.inr ⟨h1 ▸ h2, reg, f.regs ▸ hreg, hl⟩
      · exact Or.inr ⟨h1, reg', hreg', hl'⟩
  · intro k hk; exact (g.singCh k hk).trans (f.singCh k hk)
  · intro sid h; exact (g.heapO sid h).trans (f.heapO sid h)
  · intro sid k hsc
    rcases g.heapS sid k hsc with h2 | ⟨h2, reg, hreg, hl⟩
    · rcases f.heapS sid k hsc with h1 | ⟨h1, reg, hreg, hl⟩
      · exact Or.inl (h2.trans h1)
      · exact Or.inr ⟨h1, reg, hreg, hl⟩
    · rcases f.heapS sid k hsc with h1 | ⟨h1, reg', hreg', hl'⟩
      · exact Or.inr ⟨h1 ▸ h2, reg, f.regs ▸ hreg, hl⟩
      · exact Or.inr ⟨h1, reg', hreg', hl'⟩
  · intro sid k hsc hk; exact (g.heapCh sid k hsc hk).trans (f.heapCh sid k hsc hk)
  · intro k hk; exact (g.logCh k hk).trans (f.logCh k hk)

theorem Frame.mono {sc : Option Nat} {ch ch' : List Nat} {c c' : Container}
    (hsub : ∀ x, x ∈ ch → x ∈ ch') (f : Frame sc ch' c c') : Frame sc ch c c' :=
  ⟨f.regs, f.names, f.sing, fun k hk => f.singCh k (hsub _ hk), f.heapO,
   f.heapS, fun sid k hsc hk => f.heapCh sid k hsc (hsub _ hk), f.nid,
   fun k hk => f.logCh k (hsub _ hk)⟩

/-- The nextId bump and call-log append done at a factory invocation. -/
theorem Frame.logBump (sc : Option Nat) (ch : List Nat) (c : Container)
    (key : RegKey) (hkey : key.typ ∉ ch) :
    Frame sc ch c { c with nextId := c.nextId + 1, callLog := key :: c.callLog } := by
  refine ⟨rfl, rfl, fun _ => Or.inl rfl, fun _ _ => rfl, fun _ _ => rfl,
    fun _ _ _ => Or.inl rfl, fun _ _ _ _ => rfl, Nat.le_succ _, ?_⟩
  intro k hk
  have : ¬key = k := fun h => hkey (h ▸ hk)
  simp [this]

/-- Storing a freshly created singleton. -/
theorem Frame.insertSingleton (sc : Option Nat) (ch : List Nat) (c : Container)
    (key : RegKey) (v : Value) (reg : Registration)
    (hmiss : alook c.singletons key = none)
    (hreg : alook c.registrations key = some reg)
    (hlife : reg.lifetime = .Singleton)
    (hkey : key.typ ∉ ch) :
    Frame sc ch c { c with singletons := ains c.singletons key v } := by
  refine ⟨rfl, rfl, ?_, ?_, fun _ _ => rfl, fun _ _ _ => Or.inl rfl,
    fun _ _ _ _ => rfl, Nat.le_refl _, fun _ _ => rfl⟩
  · intro k
    by_cases hk : key = k
    · subst hk; exact Or.inr ⟨hmiss, reg, hreg, hlife⟩
    · left; simp [ains, hk]
  · intro k hk
    have : ¬key = k := fun h => hkey (h ▸ hk)
    simp [ains, this]

/-- Storing a freshly created scoped instance into the supplied scope. -/
theorem Frame.storeScoped (ch : List Nat) (c : Container) (sid : Nat)
    (key : RegKey) (v : Value) (reg : Registration)
    (hmiss : scopeGet c sid key = none)
    (hreg : alook c.registrations key = some reg)
    (hlife : reg.lifetime = .Scoped)
    (hkey : key.typ ∉ ch) :
    Frame (some sid) ch c (scopeSet c sid key v) := by
  refine ⟨rfl, rfl, fun _ => Or.inl rfl, fun _ _ => rfl, ?_, ?_, ?_,
    Nat.le_refl _, fun _ _ => rfl⟩
  · intro sid' h
    exact scopeHeap_scopeSet_other c sid key v sid' (fun he => h (by rw [he]))
  · intro sid' k hsc
    cases hsc
    by_cases hk : key = k
    · subst hk; exact Or.inr ⟨hmiss, reg, hreg, hlife⟩
    · left; simp [hk]
  · intro sid' k hsc hk
    cases hsc
    have : ¬key = k := fun h => hkey (h ▸ hk)
    simp [this]

theorem resolveParams_frame
    (res : Nat → String → Option Nat → List Nat → Container → Outcome Value × Container)
    (hres : ∀ p n sc ch c, Frame sc ch c (res p n sc ch c).2) :
    ∀ (ps : List Nat) (sc : Option Nat) (ch : List Nat) (c : Container),
      Frame sc ch c (resolveParams res ps sc ch c).2 := by
  intro ps
  induction ps with
  | nil => intro sc ch c; exact Frame.refl ..
  | cons p ps ih =>
    intro sc ch c
    have h1 := hres p "" sc ch c
    rcases hr : res p "" sc ch c with ⟨r1, c1⟩
    rw [hr] at h1
    cases r1 with
    | ok v =>
      have h2 := ih sc ch c1
      rcases hr2 : resolveParams res ps sc ch c1 with ⟨r2, c2⟩
      rw [hr2] at h2
      cases r2 <;> simp [resolveParams, hr, hr2] <;> exact h1.trans h2
    | fail e => simpa [resolveParams, hr] using h1
    | panicked => simpa [resolveParams, hr] using h1
    | outOfFuel => simpa [resolveParams, hr] using h1

theorem invokeFactory_frame
    (res : Nat → String → Option Nat → List Nat → Container → Outcome Value × Container)
    (hres : ∀ p n sc ch c, Frame sc ch c (res p n sc ch c).2)
    (key : RegKey) (f : Option GoFunc) (sc : Option Nat) (chArg ch : List Nat)
    (c : Container) (r : Outcome Value) (c' : Container)
    (hout : invokeFactory res key f sc chArg c = (r, c'))
    (hsub : ∀ x, x ∈ ch → x ∈ chArg)
    (hkey : key.typ ∉ ch) (hkey2 : key.typ ∈ chArg) :
    Frame sc ch c c' ∧
    alook c'.singletons key = alook c.singletons key ∧
    (∀ sid, sc = some sid → scopeGet c' sid key = scopeGet c sid key) ∧
    ((∃ v, r = .ok v) → kcount key c'.callLog = kcount key c.callLog + 1) ∧
    (∀ g v, f = some g → r = .ok v →
      ∃ args m, c.nextId ≤ m ∧ c'.nextId = m + 1 ∧
        v = (g.call args m).headD Value.nilV) := by
  cases f with
  | none =>
    simp only [invokeFactory] at hout
    cases hout
    refine ⟨Frame.refl .., rfl, fun _ _ => rfl, ?_, ?_⟩
    · rintro ⟨v, hv⟩; cases hv
    · rintro g v hv; cases hv
  | some g =>
    have hp0 := resolveParams_frame res hres g.ins sc chArg c
    rcases hp : resolveParams res g.ins sc chArg c with ⟨rp, c1⟩
    rw [hp] at hp0
    have hpF : Frame sc ch c c1 := hp0.mono hsub
    cases rp with
    | ok args =>
      by_cases hnil : args.any (fun a => a = Value.nilV)
      · simp only [invokeFactory, hp, if_pos hnil] at hout
        cases hout
        refine ⟨hpF, hp0.singCh key hkey2, fun sid hsc => hp0.heapCh sid key hsc hkey2, ?_, ?_⟩
        · rintro ⟨v, hv⟩; cases hv
        · rintro g' v hg hv; cases hv
      · have hbump : Frame sc ch c1
            { c1 with nextId := c1.nextId + 1, callLog := key :: c1.callLog } :=
          Frame.logBump sc ch c1 key hkey
        have hcount : kcount key (key :: c1.callLog) = kcount key c.callLog + 1 := by
          have := hp0.logCh key hkey2
          simp [this, Nat.add_comm]
        simp only [invokeFactory, hp, if_neg hnil] at hout
        by_cases hz : (g.call args c1.nextId).length = 0
        · rw [if_pos hz] at hout
          cases hout
          refine ⟨hpF.trans hbump, hp0.singCh key hkey2,
            fun sid hsc => hp0.heapCh sid key hsc hkey2, ?_, ?_⟩
          · rintro ⟨v, hv⟩; cases hv
          · rintro g' v hg hv; cases hv
        · rw [if_neg hz] at hout
          by_cases hpk : (g.call args c1.nextId).length = 2 ∧ g.sndNilable = false
          · rw [if_pos hpk] at hout
            cases hout
            refine ⟨hpF.trans hbump, hp0.singCh key hkey2,
              fun sid hsc => hp0.heapCh sid key hsc hkey2, ?_, ?_⟩
            · rintro ⟨v, hv⟩; cases hv
            · rintro g' v hg hv; cases hv
          · rw [if_neg hpk] at hout
            by_cases he : (g.call args c1.nextId).length = 2 ∧
                (g.call args c1.nextId).getD 1 .nilV ≠ .nilV
            · rw [if_pos he] at hout
              cases hout
              refine ⟨hpF.trans hbump, hp0.singCh key hkey2,
                fun sid hsc => hp0.heapCh sid key hsc hkey2, ?_, ?_⟩
              · rintro ⟨v, hv⟩; cases hv
              · rintro g' v hg hv; cases hv
            · rw [if_neg he] at hout
              cases hout
              refine ⟨hpF.trans hbump, hp0.singCh key hkey2,
                fun sid hsc => hp0.heapCh sid key hsc hkey2, fun _ => hcount, ?_⟩
              rintro g' v hg hv
              cases hg
              cases hv
              exact ⟨args, c1.nextId, hp0.nid, rfl, rfl⟩
    | fail e =>
      simp only [invokeFactory, hp] at hout
      cases hout
      refine ⟨hpF, hp0.singCh key hkey2, fun sid hsc => hp0.heapCh sid key hsc hkey2, ?_, ?_⟩
      · rintro ⟨v, hv⟩; cases hv
      · rintro g' v hg hv; cases hv
    | panicked =>
      simp only [invokeFactory, hp] at hout
      cases hout
      refine ⟨hpF, hp0.singCh key hkey2, fun sid hsc => hp0.heapCh sid key hsc hkey2, ?_, ?_⟩
      · rintro ⟨v, hv⟩; cases hv
      · rintro g' v hg hv; cases hv
    | outOfFuel =>
      simp only [invokeFactory, hp] at hout
      cases hout
      refine ⟨hpF, hp0.singCh key hkey2, fun sid hsc => hp0.heapCh sid key hsc hkey2, ?_, ?_⟩
      · rintro ⟨v, hv⟩; cases hv
      · rintro g' v hg hv; cases hv

/-- Every resolution step respects the frame: the registry and the scope
table are read-only, cache writes are the lifetime-directed insertions
only, and keys whose type is already on the chain are untouched. -/
theorem resolve_frame : ∀ (fuel t : Nat) (n : String) (sc : Option Nat) (ch : List Nat)
    (c : Container), Frame sc ch c (resolve fuel t n sc ch c).2 := by
  intro fuel
  induction fuel with
  | zero => intro t n sc ch c; exact Frame.refl ..
  | succ fuel ih =>
    intro t n sc ch c
    cases hreg : alook c.registrations ⟨t, n⟩ with
    | none => simp only [resolve, hreg]; exact Frame.refl ..
    | some reg =>
      by_cases hch : t ∈ ch
      · simp only [resolve, hreg, if_pos hch]; exact Frame.refl ..
      · by_cases hinst : reg.inst = Value.nilV
        case neg =>
          simp only [resolve, hreg, if_neg hch, if_pos hinst]
          exact Frame.refl ..
        case pos =>
          cases hs1 : (if reg.lifetime = .Singleton then alook c.singletons ⟨t, n⟩
              else none) with
          | some v =>
            simp only [resolve, hreg, if_neg hch, hinst, ite_true, ne_eq,
              not_true_eq_false, if_false, hs1]
            exact Frame.refl ..
          | none =>
            cases hs2 : (if reg.lifetime = .Scoped then
                sc.bind (fun sid => scopeGet c sid ⟨t, n⟩) else none) with
            | some v =>
              simp only [resolve, hreg, if_neg hch, hinst, ne_eq, not_true_eq_false,
                if_false, hs1, hs2]
              exact Frame.refl ..
            | none =>
              rcases hinv : invokeFactory (resolve fuel) ⟨t, n⟩ reg.factory sc
                  (ch ++ [t]) c with ⟨ri, c1⟩
              have hb := invokeFactory_frame (resolve fuel) (ih · · · ·) ⟨t, n⟩
                reg.factory sc (ch ++ [t]) ch c ri c1 hinv
                (fun x hx => List.mem_append_left _ hx) hch
                (List.mem_append_right _ (List.mem_singleton_self t))
              cases ri with
              | ok v =>
                simp only [resolve, hreg, if_neg hch, hinst, ne_eq, not_true_eq_false,
                  if_false, hs1, hs2, hinv]
                cases hl : reg.lifetime with
                | Transient => simpa using hb.1
                | Singleton =>
                  have hmiss : alook c.singletons ⟨t, n⟩ = none := by
                    rw [hl] at hs1; simpa using hs1
                  have hmiss1 : alook c1.singletons ⟨t, n⟩ = none := by
                    rw [hb.2.1]; exact hmiss
                  have hreg1 : alook c1.registrations ⟨t, n⟩ = some reg := by
                    rw [hb.1.regs]; exact hreg
                  simpa using hb.1.trans
                    (Frame.insertSingleton sc ch c1 ⟨t, n⟩ v reg hmiss1 hreg1 hl hch)
                | Scoped =>
                  cases hsc : sc with
                  | none =>
                    rw [hsc] at hb
                    simpa using hb.1
                  | some sid =>
                    have hmiss : scopeGet c sid ⟨t, n⟩ = none := by
                      rw [hl] at hs2
                      rw [hsc] at hs2
                      simpa using hs2
                    have hmiss1 : scopeGet c1 sid ⟨t, n⟩ = none := by
                      rw [hb.2.2.1 sid hsc]; exact hmiss
                    have hreg1 : alook c1.registrations ⟨t, n⟩ = some reg := by
                      rw [hb.1.regs]; exact hreg
                    have hstep := Frame.storeScoped ch c1 sid ⟨t, n⟩ v reg
                      hmiss1 hreg1 hl hch
                    rw [hsc] at hb
                    simpa using hb.1.trans hstep
              | fail e =>
                simp only [resolve, hreg, if_neg hch, hinst, ne_eq, not_true_eq_false,
                  if_false, hs1, hs2, hinv]
                exact hb.1
              | panicked =>
                simp only [resolve, hreg, if_neg hch, hinst, ne_eq, not_true_eq_false,
                  if_false, hs1, hs2, hinv]
                exact hb.1
              | outOfFuel =>
                simp only [resolve, hreg, if_neg hch, hinst, ne_eq, not_true_eq_false,
                  if_false, hs1, hs2, hinv]
                exact hb.1

/-- Step 3 of the resolver: a pre-registered instance is returned
immediately, before any cache or factory logic, leaving the whole state
(including the invocation log) unchanged. -/
theorem resolve_inst_hit (fuel t : Nat) (n : String) (sc : Option Nat) (ch : List Nat)
    (c : Container) (reg : Registration)
    (hreg : alook c.registrations ⟨t, n⟩ = some reg)
    (hch : t ∉ ch) (hinst : reg.inst ≠ Value.nilV) :
    resolve (fuel + 1) t n sc ch c = (.ok reg.inst, c) := by
  simp only [resolve, hreg, if_neg hch, ne_eq]
  rw [if_pos hinst]

/-- Step 4 of the resolver: a singleton cache hit returns the cached
value and changes nothing. -/
theorem resolve_singleton_hit (fuel t : Nat) (n : String) (sc : Option Nat)
    (ch : List Nat) (c : Container) (reg : Registration) (v : Value)
    (hreg : alook c.registrations ⟨t, n⟩ = some reg)
    (hch : t ∉ ch) (hinst : reg.inst = Value.nilV)
    (hlife : reg.lifetime = .Singleton)
    (hcache : alook c.singletons ⟨t, n⟩ = some v) :
    resolve (fuel + 1) t n sc ch c = (.ok v, c) := by
  simp [resolve, hreg, hch, hinst, hlife, hcache]

/-- Step 5 of the resolver: a scope cache hit returns the value cached
in the supplied scope and changes nothing. -/
theorem resolve_scoped_hit (fuel t : Nat) (n : String) (sid : Nat) (ch : List Nat)
    (c : Container) (reg : Registration) (v : Value)
    (hreg : alook c.registrations ⟨t, n⟩ = some reg)
    (hch : t ∉ ch) (hinst : reg.inst = Value.nilV)
    (hlife : reg.lifetime = .Scoped)
    (hcache : scopeGet c sid ⟨t, n⟩ = some v) :
    resolve (fuel + 1) t n (some sid) ch c = (.ok v, c) := by
  simp [resolve, hreg, hch, hinst, hlife, hcache]

/-- The resolver on a cache miss: when the requested key has no usable
cached value, a successful resolution ran the factory exactly once for
this key, stored the result per the lifetime policy, and (for the fresh
identity) produced it from the factory at an allocation identity taken
from the current counter interval. -/
theorem resolve_miss (fuel t : Nat) (n : String) (sc : Option Nat) (ch : List Nat)
    (c : Container) (reg : Registration) (r : Outcome Value) (c' : Container)
    (hreg : alook c.registrations ⟨t, n⟩ = some reg)
    (hch : t ∉ ch)
    (hinst : reg.inst = Value.nilV)
    (hs1 : (if reg.lifetime = .Singleton then alook c.singletons ⟨t, n⟩ else none) = none)
    (hs2 : (if reg.lifetime = .Scoped then
             sc.bind (fun sid => scopeGet c sid ⟨t, n⟩) else none) = none)
    (hrun : resolve (fuel + 1) t n sc ch c = (r, c')) :
    ∀ v, r = .ok v →
      kcount ⟨t, n⟩ c'.callLog = kcount ⟨t, n⟩ c.callLog + 1 ∧
      (reg.lifetime = .Singleton → alook c'.singletons ⟨t, n⟩ = some v) ∧
      (∀ sid, reg.lifetime = .Scoped → sc = some sid → scopeGet c' sid ⟨t, n⟩ = some v) ∧
      (∀ g, reg.factory = some g →
        ∃ args m, c.nextId ≤ m ∧ m < c'.nextId ∧
          v = (g.call args m).headD Value.nilV) := by
  rcases hinv : invokeFactory (resolve fuel) ⟨t, n⟩ reg.factory sc (ch ++ [t]) c
    with ⟨ri, c1⟩
  have hb := invokeFactory_frame (resolve fuel)
    (fun p n sc ch c => resolve_frame fuel p n sc ch c) ⟨t, n⟩
    reg.factory sc (ch ++ [t]) ch c ri c1 hinv
    (fun x hx => List.mem_append_left _ hx) hch
    (List.mem_append_right _ (List.mem_singleton_self t))
  cases ri with
  | ok v0 =>
    simp only [resolve, hreg, if_neg hch, hinst, ne_eq, not_true_eq_false,
      if_false, hs1, hs2, hinv] at hrun
    intro v hv
    have hcount := hb.2.2.2.1 ⟨v0, rfl⟩
    have hfresh := hb.2.2.2.2
    cases hl : reg.lifetime with
    | Transient =>
      rw [hl] at hrun
      simp only at hrun
      injection hrun with h1 h2
      subst h2
      rw [← h1] at hv
      injection hv with hv0
      subst hv0
      refine ⟨hcount, ?_, ?_, ?_⟩
      · intro h; exact Lifetime.noConfusion h
      · intro sid h; exact Lifetime.noConfusion h
      · intro g hg
        rcases hfresh g v0 hg rfl with ⟨args, m, hm1, hm2, hm3⟩
        exact ⟨args, m, hm1, by omega, hm3⟩
    | Singleton =>
      rw [hl] at hrun
      simp only at hrun
      injection hrun with h1 h2
      subst h2
      rw [← h1] at hv
      injection hv with hv0
      subst hv0
      refine ⟨hcount, ?_, ?_, ?_⟩
      · intro _; simp [ains]
      · intro sid h; exact Lifetime.noConfusion h
      · intro g hg
        rcases hfresh g v0 hg rfl with ⟨args, m, hm1, hm2, hm3⟩
        refine ⟨args, m, hm1, ?_, hm3⟩
        show m < c1.nextId
        omega
    | Scoped =>
      rw [hl] at hrun
      cases hsc : sc with
      | none =>
        rw [hsc] at hrun
        simp only at hrun
        injection hrun with h1 h2
        subst h2
        rw [← h1] at hv
        injection hv with hv0
        subst hv0
        refine ⟨hcount, ?_, ?_, ?_⟩
        · intro h; exact Lifetime.noConfusion h
        · intro sid _ h; exact Option.noConfusion h
        · intro g hg
          rcases hfresh g v0 hg rfl with ⟨args, m, hm1, hm2, hm3⟩
          exact ⟨args, m, hm1, by omega, hm3⟩
      | some sid =>
        rw [hsc] at hrun
        simp only at hrun
        injection hrun with h1 h2
        subst h2
        rw [← h1] at hv
        injection hv with hv0
        subst hv0
        refine ⟨hcount, ?_, ?_, ?_⟩
        · intro h; exact Lifetime.noConfusion h
        · intro sid' _ hsome
          injection hsome with hsid
          subst hsid
          simp
        · intro g hg
          rcases hfresh g v0 hg rfl with ⟨args, m, hm1, hm2, hm3⟩
          refine ⟨args, m, hm1, ?_, hm3⟩
          simp only [scopeSet]
          omega
  | fail e =>
    simp only [resolve, hreg, if_neg hch, hinst, ne_eq, not_true_eq_false,
      if_false, hs1, hs2, hinv] at hrun
    injection hrun with h1 h2
    intro v hv
    rw [← h1] at hv
    cases hv
  | panicked =>
    simp only [resolve, hreg, if_neg hch, hinst, ne_eq, not_true_eq_false,
      if_false, hs1, hs2, hinv] at hrun
    injection hrun with h1 h2
    intro v hv
    rw [← h1] at hv
    cases hv
  | outOfFuel =>
    simp only [resolve, hreg, if_neg hch, hinst, ne_eq, not_true_eq_false,
      if_false, hs1, hs2, hinv] at hrun
    injection hrun with h1 h2
    intro v hv
    rw [← h1] at hv
    cases hv

theorem applyOpt_inst (r : Registration) (o : RegOption) : (applyOpt r o).inst = r.inst := by
  cases o <;> rfl

theorem applyOpts_inst (opts : List RegOption) :
    ∀ r, (applyOpts r opts).inst = r.inst := by
  induction opts with
  | nil => intro r; rfl
  | cons o os ih =>
    intro r
    show (applyOpts (applyOpt r o) os).inst = r.inst
    rw [ih (applyOpt r o), applyOpt_inst]

theorem applyOpt_factory (r : Registration) (o : RegOption) :
    (applyOpt r o).factory = r.factory := by
  cases o <;> rfl

theorem applyOpts_factory (opts : List RegOption) :
    ∀ r, (applyOpts r opts).factory = r.factory := by
  induction opts with
  | nil => intro r; rfl
  | cons o os ih =>
    intro r
    show (applyOpts (applyOpt r o) os).factory = r.factory
    rw [ih (applyOpt r o), applyOpt_factory]

/-- C1: after `RegisterInstance` of a non-nil value `v`, the singleton
cache already holds `v` for the key, the registration record holds `v`
as its instance, and in any container state in which a registration
with instance `v` is still present under the key (no re-registration or
`Clear` in between), `resolve` returns exactly `v` with the whole state
(call log included, so no factory ran; caches included) unchanged —
regardless of what the caches hold, showing the instance check precedes
all lifetime and cache logic.  The public `ResolveNamed` returns `v`
likewise. -/
theorem C1_register_instance (c : Container) (t : Nat) (v : Value) (opts : List RegOption)
    (reg : Registration) (key : RegKey) (c' : Container)
    (hv : v ≠ Value.nilV)
    (hregdef : reg = applyOpts
      { targetType := t, inst := v, lifetime := .Singleton } opts)
    (hkey : key = ⟨t, reg.name⟩)
    (hc' : c' = RegisterInstance c t v opts) :
    alook c'.singletons key = some v ∧
    alook c'.registrations key = some reg ∧
    (∀ (s : Container) (reg' : Registration) (fuel : Nat) (sc : Option Nat),
      alook s.registrations key = some reg' → reg'.inst = v →
      resolve (fuel + 1) t reg.name sc [] s = (.ok v, s)) ∧
    (∀ fuel, ResolveNamed c' (fuel + 1) t reg.name = (.ok v, c')) := by
  have hinst : reg.inst = v := by rw [hregdef, applyOpts_inst]
  have hkey2 : key = ⟨t, reg.name⟩ := hkey
  subst hregdef hkey hc'
  refine ⟨?_, ?_, ?_, ?_⟩
  · simp [RegisterInstance, alook_ains]
  · simp [RegisterInstance, alook_ains]
  · intro s reg' fuel sc hreg' hinst'
    have h := resolve_inst_hit fuel t _ sc [] s reg' hreg' (by simp)
      (by rw [hinst']; exact hv)
    rw [hinst'] at h
    exact h
  · intro fuel
    have hreg' : alook (RegisterInstance c t v opts).registrations
        ⟨t, (applyOpts { targetType := t, inst := v, lifetime := .Singleton } opts).name⟩ =
        some (applyOpts { targetType := t, inst := v, lifetime := .Singleton } opts) := by
      simp [RegisterInstance, alook_ains]
    have h := resolve_inst_hit fuel t _ none [] (RegisterInstance c t v opts) _ hreg'
      (by simp) (by rw [hinst]; exact hv)
    rw [hinst] at h
    simp only [ResolveNamed, h]
    simp [typeAssert, hv]

/-- C2: for a singleton registered through a factory (no pre-built
instance), a successful resolution leaves the created value in the
singleton cache; any further resolution returns that very value with
the state unchanged (so the factory is not run again); when the cache
was empty the run executed the factory for this key exactly once; and a
resolution that starts from an already-populated cache changes nothing
at all. -/
theorem C2_singleton_caching (fuel t : Nat) (n : String) (c c₁ : Container)
    (reg : Registration) (v : Value)
    (hreg : alook c.registrations ⟨t, n⟩ = some reg)
    (hfac : reg.inst = Value.nilV)
    (hlife : reg.lifetime = .Singleton)
    (hrun : resolve (fuel + 1) t n none [] c = (.ok v, c₁)) :
    alook c₁.singletons ⟨t, n⟩ = some v ∧
    (∀ fuel', resolve (fuel' + 1) t n none [] c₁ = (.ok v, c₁)) ∧
    (alook c.singletons ⟨t, n⟩ = none →
      kcount ⟨t, n⟩ c₁.callLog = kcount ⟨t, n⟩ c.callLog + 1) ∧
    (alook c.singletons ⟨t, n⟩ = some v → c₁ = c) := by
  have hframe := resolve_frame (fuel + 1) t n none [] c
  rw [hrun] at hframe
  cases hcache : alook c.singletons ⟨t, n⟩ with
  | some w =>
    have hhit := resolve_singleton_hit fuel t n none [] c reg w hreg (by simp)
      hfac hlife hcache
    have heq := hhit.symm.trans hrun
    injection heq with h1 h2
    injection h1 with h1
    subst h1
    refine ⟨?_, ?_, ?_, fun _ => h2.symm⟩
    · rw [← h2]; exact hcache
    · intro fuel'
      rw [← h2]
      exact resolve_singleton_hit fuel' t n none [] c reg _ hreg (by simp)
        hfac hlife hcache
    · intro h
      exact Option.noConfusion h
  | none =>
    have hs1 : (if reg.lifetime = .Singleton then alook c.singletons ⟨t, n⟩
        else none) = none := by rw [hlife]; simpa using hcache
    have hs2 : (if reg.lifetime = .Scoped then
        (none : Option Nat).bind (fun sid => scopeGet c sid ⟨t, n⟩) else none) = none := by
      rw [hlife]; simp
    have hm := resolve_miss fuel t n none [] c reg (.ok v) c₁ hreg (by simp)
      hfac hs1 hs2 hrun v rfl
    have hstore : alook c₁.singletons ⟨t, n⟩ = some v := hm.2.1 hlife
    have hreg₁ : alook c₁.registrations ⟨t, n⟩ = some reg := by
      rw [hframe.regs]; exact hreg
    refine ⟨hstore, ?_, fun _ => hm.1, ?_⟩
    · intro fuel'
      exact resolve_singleton_hit fuel' t n none [] c₁ reg v hreg₁ (by simp)
        hfac hlife hstore
    · intro h
      exact Option.noConfusion h

/-- C3: for a scoped registration, a successful resolution in scope `s1`
caches the value in that scope; re-resolving in `s1` returns the same
value with the state unchanged (the factory is not run again); when the
scope started empty the factory ran exactly once for this key; and a
subsequent successful resolution in a distinct scope `s2` that has no
cached entry runs the factory once more, caches its result only in
`s2`, and leaves the `s1` scope object (and its cached value) intact. -/
theorem C3_scoped_partitioning (fuel t : Nat) (n : String) (c c₁ : Container)
    (reg : Registration) (s1 : Nat) (v : Value)
    (hreg : alook c.registrations ⟨t, n⟩ = some reg)
    (hfac : reg.inst = Value.nilV)
    (hlife : reg.lifetime = .Scoped)
    (hrun : resolve (fuel + 1) t n (some s1) [] c = (.ok v, c₁)) :
    scopeGet c₁ s1 ⟨t, n⟩ = some v ∧
    (∀ fuel', resolve (fuel' + 1) t n (some s1) [] c₁ = (.ok v, c₁)) ∧
    (scopeGet c s1 ⟨t, n⟩ = none →
      kcount ⟨t, n⟩ c₁.callLog = kcount ⟨t, n⟩ c.callLog + 1) ∧
    (∀ s2 fuel₂ v₂ c₂, s2 ≠ s1 → scopeGet c₁ s2 ⟨t, n⟩ = none →
      resolve (fuel₂ + 1) t n (some s2) [] c₁ = (.ok v₂, c₂) →
      kcount ⟨t, n⟩ c₂.callLog = kcount ⟨t, n⟩ c₁.callLog + 1 ∧
      scopeGet c₂ s2 ⟨t, n⟩ = some v₂ ∧
      alook c₂.scopeHeap s1 = alook c₁.scopeHeap s1 ∧
      scopeGet c₂ s1 ⟨t, n⟩ = some v) := by
  have hframe := resolve_frame (fuel + 1) t n (some s1) [] c
  rw [hrun] at hframe
  have hreg₁ : alook c₁.registrations ⟨t, n⟩ = some reg := by
    rw [hframe.regs]; exact hreg
  have hmain : scopeGet c₁ s1 ⟨t, n⟩ = some v ∧
      (scopeGet c s1 ⟨t, n⟩ = none →
        kcount ⟨t, n⟩ c₁.callLog = kcount ⟨t, n⟩ c.callLog + 1) := by
    cases hcache : scopeGet c s1 ⟨t, n⟩ with
    | some w =>
      have hhit := resolve_scoped_hit fuel t n s1 [] c reg w hreg (by simp)
        hfac hlife hcache
      have heq := hhit.symm.trans hrun
      injection heq with h1 h2
      injection h1 with h1
      subst h1
      constructor
      · rw [← h2]; exact hcache
      · intro h; exact Option.noConfusion h
    | none =>
      have hs1 : (if reg.lifetime = .Singleton then alook c.singletons ⟨t, n⟩
          else none) = none := by rw [hlife]; simp
      have hs2 : (if reg.lifetime = .Scoped then
          (some s1).bind (fun sid => scopeGet c sid ⟨t, n⟩) else none) = none := by
        rw [hlife]; simpa using hcache
      have hm := resolve_miss fuel t n (some s1) [] c reg (.ok v) c₁ hreg (by simp)
        hfac hs1 hs2 hrun v rfl
      exact ⟨hm.2.2.1 s1 hlife rfl, fun _ => hm.1⟩
  refine ⟨hmain.1, ?_, hmain.2, ?_⟩
  · intro fuel'
    exact resolve_scoped_hit fuel' t n s1 [] c₁ reg v hreg₁ (by simp)
      hfac hlife hmain.1
  · intro s2 fuel₂ v₂ c₂ hne hmiss2 hrun2
    have hframe2 := resolve_frame (fuel₂ + 1) t n (some s2) [] c₁
    rw [hrun2] at hframe2
    have hs1b : (if reg.lifetime = .Singleton then alook c₁.singletons ⟨t, n⟩
        else none) = none := by rw [hlife]; simp
    have hs2b : (if reg.lifetime = .Scoped then
        (some s2).bind (fun sid => scopeGet c₁ sid ⟨t, n⟩) else none) = none := by
      rw [hlife]; simpa using hmiss2
    have hm2 := resolve_miss fuel₂ t n (some s2) [] c₁ reg (.ok v₂) c₂ hreg₁ (by simp)
      hfac hs1b hs2b hrun2 v₂ rfl
    have hheap : alook c₂.scopeHeap s1 = alook c₁.scopeHeap s1 :=
      hframe2.heapO s1 (by simpa using fun h => hne h.symm)
    refine ⟨hm2.1, hm2.2.2.1 s2 hlife rfl, hheap, ?_⟩
    rw [scopeGet_congr s1 ⟨t, n⟩ hheap]
    exact hmain.1

/-- C4: a scoped registration resolved with no scope supplied behaves
like a transient: every successful call runs the factory once more for
this key, nothing is written to the singleton cache entry of the key or
to any scope object, and with a factory producing a fresh object per
invocation two successive successful resolutions yield distinct
instances. -/
theorem C4_scoped_without_scope (fuel t : Nat) (n : String) (c c₁ : Container)
    (reg : Registration) (r : Outcome Value)
    (hreg : alook c.registrations ⟨t, n⟩ = some reg)
    (hfac : reg.inst = Value.nilV)
    (hlife : reg.lifetime = .Scoped)
    (hrun : resolve (fuel + 1) t n none [] c = (r, c₁)) :
    (∀ v, r = .ok v → kcount ⟨t, n⟩ c₁.callLog = kcount ⟨t, n⟩ c.callLog + 1) ∧
    alook c₁.singletons ⟨t, n⟩ = alook c.singletons ⟨t, n⟩ ∧
    (∀ sid, alook c₁.scopeHeap sid = alook c.scopeHeap sid) ∧
    (∀ g, reg.factory = some g → (∀ args id, g.call args id = [Value.obj id]) →
      ∀ v, r = .ok v →
      ∀ fuel₂ v₂ c₂, resolve (fuel₂ + 1) t n none [] c₁ = (.ok v₂, c₂) → v₂ ≠ v) := by
  have hframe := resolve_frame (fuel + 1) t n none [] c
  rw [hrun] at hframe
  have hs1 : (if reg.lifetime = .Singleton then alook c.singletons ⟨t, n⟩
      else none) = none := by rw [hlife]; simp
  have hs2 : (if reg.lifetime = .Scoped then
      (none : Option Nat).bind (fun sid => scopeGet c sid ⟨t, n⟩) else none) = none := by
    rw [hlife]; simp
  have hm := resolve_miss fuel t n none [] c reg r c₁ hreg (by simp) hfac hs1 hs2 hrun
  refine ⟨fun v hv => (hm v hv).1, ?_, ?_, ?_⟩
  · rcases hframe.sing ⟨t, n⟩ with h | ⟨_, reg', hreg', hl'⟩
    · exact h
    · rw [hreg] at hreg'
      injection hreg' with hreg'
      rw [← hreg'] at hl'
      rw [hlife] at hl'
      exact Lifetime.noConfusion hl'
  · intro sid
    exact hframe.heapO sid (by simp)
  · intro g hg hfresh v hv fuel₂ v₂ c₂ hrun2
    rcases (hm v hv).2.2.2 g hg with ⟨args, m, hm1, hm2, hm3⟩
    have hreg₁ : alook c₁.registrations ⟨t, n⟩ = some reg := by
      rw [hframe.regs]; exact hreg
    have hs1b : (if reg.lifetime = .Singleton then alook c₁.singletons ⟨t, n⟩
        else none) = none := by rw [hlife]; simp
    have hs2b : (if reg.lifetime = .Scoped then
        (none : Option Nat).bind (fun sid => scopeGet c₁ sid ⟨t, n⟩) else none) = none := by
      rw [hlife]; simp
    have hm2 := resolve_miss fuel₂ t n none [] c₁ reg (.ok v₂) c₂ hreg₁ (by simp)
      hfac hs1b hs2b hrun2 v₂ rfl
    rcases hm2.2.2.2 g hg with ⟨args₂, m₂, hm21, hm22, hm23⟩
    rw [hfresh args m] at hm3
    rw [hfresh args₂ m₂] at hm23
    simp only [List.headD] at hm3 hm23
    rw [hm3, hm23]
    intro hcontra
    injection hcontra with hcontra
    omega

/-- C7: `Register` never touches the singleton cache, the scope heap or
the scope table, whatever the outcome; consequently, when a key already
has a cached singleton (resp. a cached scoped instance in some scope)
and the key is successfully re-registered with a Singleton (resp.
Scoped) lifetime, resolution still returns the stale cached value, with
the state unchanged — so the old instance survives until `Clear`. -/
theorem C7_reregistration_keeps_stale_cache (env : TypeEnv) (c c' : Container)
    (t : Nat) (fopt : Option GoFunc) (opts : List RegOption) (e? : Option GoError)
    (hrun : Register env c t fopt opts = (e?, c')) :
    c'.singletons = c.singletons ∧
    c'.scopeHeap = c.scopeHeap ∧
    c'.scopes = c.scopes ∧
    (∀ (reg : Registration) (v : Value) (fuel : Nat),
      reg = applyOpts (regBase t fopt) opts → e? = none →
      reg.lifetime = .Singleton →
      alook c.singletons ⟨t, reg.name⟩ = some v →
      resolve (fuel + 1) t reg.name none [] c' = (.ok v, c')) ∧
    (∀ (reg : Registration) (sid : Nat) (v : Value) (fuel : Nat),
      reg = applyOpts (regBase t fopt) opts → e? = none →
      reg.lifetime = .Scoped →
      scopeGet c sid ⟨t, reg.name⟩ = some v →
      resolve (fuel + 1) t reg.name (some sid) [] c' = (.ok v, c')) := by
  have hstate : c'.singletons = c.singletons ∧ c'.scopeHeap = c.scopeHeap ∧
      c'.scopes = c.scopes ∧
      (e? = none → c'.registrations =
        ains c.registrations ⟨t, (applyOpts (regBase t fopt) opts).name⟩
          (applyOpts (regBase t fopt) opts)) := by
    cases hval : validateFactory env t fopt with
    | some e =>
      simp only [Register, hval] at hrun
      injection hrun with h1 h2
      subst h2
      refine ⟨rfl, rfl, rfl, ?_⟩
      intro h
      rw [← h1] at h
      cases h
    | none =>
      simp only [Register, hval] at hrun
      injection hrun with h1 h2
      subst h2
      exact ⟨rfl, rfl, rfl, fun _ => rfl⟩
  have hinst : (applyOpts (regBase t fopt) opts).inst = Value.nilV := by
    rw [applyOpts_inst]; rfl
  refine ⟨hstate.1, hstate.2.1, hstate.2.2.1, ?_, ?_⟩
  · intro reg v fuel hregdef he hlife hcache
    subst hregdef
    have hreg' : alook c'.registrations
        ⟨t, (applyOpts (regBase t fopt) opts).name⟩ =
        some (applyOpts (regBase t fopt) opts) := by
      rw [hstate.2.2.2 he]; simp [alook_ains]
    have hcache' : alook c'.singletons
        ⟨t, (applyOpts (regBase t fopt) opts).name⟩ = some v := by
      rw [hstate.1]; exact hcache
    exact resolve_singleton_hit fuel t _ none [] c' _ v hreg' (by simp)
      hinst hlife hcache'
  · intro reg sid v fuel hregdef he hlife hcache
    subst hregdef
    have hreg' : alook c'.registrations
        ⟨t, (applyOpts (regBase t fopt) opts).name⟩ =
        some (applyOpts (regBase t fopt) opts) := by
      rw [hstate.2.2.2 he]; simp [alook_ains]
    have hheap : alook c'.scopeHeap sid = alook c.scopeHeap sid := by
      rw [hstate.2.1]
    have hcache' : scopeGet c' sid
        ⟨t, (applyOpts (regBase t fopt) opts).name⟩ = some v := by
      rw [scopeGet_congr sid ⟨t, (applyOpts (regBase t fopt) opts).name⟩ hheap]
      exact hcache
    exact resolve_scoped_hit fuel t _ sid [] c' _ v hreg' (by simp)
      hinst hlife hcache'

/-- C10: a resolution call — through `ResolveNamed` (no scope) or
`ResolveInScope` (with a scope) — never changes the registrations map
or the container's scope-name table; with no scope supplied the scope
heap is untouched entirely; singleton-cache changes are only insertions
at keys registered with Singleton lifetime that were unpopulated
before; and the supplied scope's cache changes are only insertions at
keys registered with Scoped lifetime that were unpopulated in that
scope. -/
theorem C10_resolution_frame (c : Container) (fuel t : Nat) (n : String) (sid : Nat) :
    ((ResolveNamed c fuel t n).2.registrations = c.registrations ∧
     (ResolveNamed c fuel t n).2.scopes = c.scopes ∧
     (∀ s, alook (ResolveNamed c fuel t n).2.scopeHeap s = alook c.scopeHeap s) ∧
     (∀ k, alook (ResolveNamed c fuel t n).2.singletons k = alook c.singletons k ∨
       (alook c.singletons k = none ∧ ∃ reg, alook c.registrations k = some reg ∧
         reg.lifetime = .Singleton))) ∧
    ((ResolveInScope c fuel t (some sid)).2.registrations = c.registrations ∧
     (ResolveInScope c fuel t (some sid)).2.scopes = c.scopes ∧
     (∀ s, s ≠ sid →
       alook (ResolveInScope c fuel t (some sid)).2.scopeHeap s = alook c.scopeHeap s) ∧
     (∀ k, alook (ResolveInScope c fuel t (some sid)).2.singletons k =
         alook c.singletons k ∨
       (alook c.singletons k = none ∧ ∃ reg, alook c.registrations k = some reg ∧
         reg.lifetime = .Singleton)) ∧
     (∀ k, scopeGet (ResolveInScope c fuel t (some sid)).2 sid k = scopeGet c sid k ∨
       (scopeGet c sid k = none ∧ ∃ reg, alook c.registrations k = some reg ∧
         reg.lifetime = .Scoped))) := by
  have h1 := resolve_frame fuel t n none [] c
  have h2 := resolve_frame fuel t "" (some sid) [] c
  constructor
  · exact ⟨h1.regs, h1.names, fun s => h1.heapO s (by simp), h1.sing⟩
  · refine ⟨h2.regs, h2.names, ?_, h2.sing, fun k => h2.heapS sid k rfl⟩
    intro s hs
    exact h2.heapO s (by simpa using hs)

/-- Step 2 of the resolver: a type already on the chain fails with the
circular-dependency error before anything else happens. -/
theorem resolve_cycle (fuel t : Nat) (n : String) (sc : Option Nat) (ch : List Nat)
    (c : Container) (reg : Registration)
    (hreg : alook c.registrations ⟨t, n⟩ = some reg)
    (hch : t ∈ ch) :
    resolve (fuel + 1) t n sc ch c = (.fail (.circularDependency (ch ++ [t])), c) := by
  simp only [resolve, hreg, if_pos hch]

/-- A failing factory invocation on the miss path surfaces as a
`resolutionFailed` wrapper. -/
theorem resolve_fail_wrap (fuel t : Nat) (n : String) (sc : Option Nat) (ch : List Nat)
    (c c₁ : Container) (reg : Registration) (e : GoError)
    (hreg : alook c.registrations ⟨t, n⟩ = some reg)
    (hch : t ∉ ch) (hinst : reg.inst = Value.nilV)
    (hs1 : (if reg.lifetime = .Singleton then alook c.singletons ⟨t, n⟩ else none) = none)
    (hs2 : (if reg.lifetime = .Scoped then
             sc.bind (fun sid => scopeGet c sid ⟨t, n⟩) else none) = none)
    (hinv : invokeFactory (resolve fuel) ⟨t, n⟩ reg.factory sc (ch ++ [t]) c =
      (.fail e, c₁)) :
    resolve (fuel + 1) t n sc ch c = (.fail (.resolutionFailed t e), c₁) := by
  simp only [resolve, hreg, if_neg hch, hinst, ne_eq, not_true_eq_false, if_false,
    hs1, hs2, hinv]

/-- A single-parameter factory whose parameter resolution fails makes
`invokeFactory` fail with that error, without running the factory body. -/
theorem invokeFactory_single_param_fail
    (res : Nat → String → Option Nat → List Nat → Container → Outcome Value × Container)
    (key : RegKey) (g : GoFunc) (p : Nat) (sc : Option Nat) (ch : List Nat)
    (c c₁ : Container) (e : GoError)
    (hins : g.ins = [p])
    (hres : res p "" sc ch c = (.fail e, c₁)) :
    invokeFactory res key (some g) sc ch c = (.fail e, c₁) := by
  simp only [invokeFactory, hins, resolveParams, hres]

/-- C5: with `A`'s factory taking a `B` parameter and `B`'s factory
taking an `A` parameter, resolving either type fails, the failure wraps
a `circularDependency` error whose chain lists both types (with the
revisited type at both ends, as `errors.As` surfaces through the
`resolutionFailed` wrappers), and the final state is exactly the
initial one — in particular the call log is unchanged, so the cycle was
detected before any factory body ran. -/
theorem C5_cycle_detection (fuel tA tB : Nat) (c : Container)
    (rA rB : Registration) (fA fB : GoFunc)
    (hAB : tA ≠ tB)
    (hregA : alook c.registrations ⟨tA, ""⟩ = some rA)
    (hregB : alook c.registrations ⟨tB, ""⟩ = some rB)
    (hiA : rA.inst = Value.nilV) (hiB : rB.inst = Value.nilV)
    (hfA : rA.factory = some fA) (hfB : rB.factory = some fB)
    (hinsA : fA.ins = [tB]) (hinsB : fB.ins = [tA])
    (hcA : rA.lifetime = .Singleton → alook c.singletons ⟨tA, ""⟩ = none)
    (hcB : rB.lifetime = .Singleton → alook c.singletons ⟨tB, ""⟩ = none) :
    resolve (fuel + 1 + 1 + 1) tA "" none [] c =
      (.fail (.resolutionFailed tA (.resolutionFailed tB
        (.circularDependency [tA, tB, tA]))), c) ∧
    resolve (fuel + 1 + 1 + 1) tB "" none [] c =
      (.fail (.resolutionFailed tB (.resolutionFailed tA
        (.circularDependency [tB, tA, tB]))), c) := by
  have hs1A : (if rA.lifetime = .Singleton then alook c.singletons ⟨tA, ""⟩
      else none) = none := by
    by_cases h : rA.lifetime = .Singleton
    · rw [if_pos h]; exact hcA h
    · rw [if_neg h]
  have hs1B : (if rB.lifetime = .Singleton then alook c.singletons ⟨tB, ""⟩
      else none) = none := by
    by_cases h : rB.lifetime = .Singleton
    · rw [if_pos h]; exact hcB h
    · rw [if_neg h]
  have hs2 : ∀ (r : Registration) (k : RegKey), (if r.lifetime = .Scoped then
      (none : Option Nat).bind (fun sid => scopeGet c sid k) else none) = none := by
    intro r k
    by_cases h : r.lifetime = .Scoped <;> simp [h]
  have hBA : tB ≠ tA := fun h => hAB h.symm
  constructor
  · have hinner : resolve (fuel + 1) tA "" none [tA, tB] c =
        (.fail (.circularDependency [tA, tB, tA]), c) :=
      resolve_cycle fuel tA "" none [tA, tB] c rA hregA (by simp)
    have hinvB : invokeFactory (resolve (fuel + 1)) ⟨tB, ""⟩ rB.factory
        none [tA, tB] c = (.fail (.circularDependency [tA, tB, tA]), c) := by
      rw [hfB]
      exact invokeFactory_single_param_fail (resolve (fuel + 1)) ⟨tB, ""⟩ fB tA
        none [tA, tB] c c _ hinsB hinner
    have hB : resolve (fuel + 1 + 1) tB "" none [tA] c =
        (.fail (.resolutionFailed tB (.circularDependency [tA, tB, tA])), c) :=
      resolve_fail_wrap (fuel + 1) tB "" none [tA] c c rB _ hregB (by simp [hBA])
        hiB hs1B (hs2 rB ⟨tB, ""⟩) hinvB
    have hinvA : invokeFactory (resolve (fuel + 1 + 1)) ⟨tA, ""⟩ rA.factory
        none [tA] c =
        (.fail (.resolutionFailed tB (.circularDependency [tA, tB, tA])), c) := by
      rw [hfA]
      exact invokeFactory_single_param_fail (resolve (fuel + 1 + 1)) ⟨tA, ""⟩ fA tB
        none [tA] c c _ hinsA hB
    exact resolve_fail_wrap (fuel + 1 + 1) tA "" none [] c c rA _ hregA (by simp)
      hiA hs1A (hs2 rA ⟨tA, ""⟩) hinvA
  · have hinner : resolve (fuel + 1) tB "" none [tB, tA] c =
        (.fail (.circularDependency [tB, tA, tB]), c) :=
      resolve_cycle fuel tB "" none [tB, tA] c rB hregB (by simp)
    have hinvA : invokeFactory (resolve (fuel + 1)) ⟨tA, ""⟩ rA.factory
        none [tB, tA] c = (.fail (.circularDependency [tB, tA, tB]), c) := by
      rw [hfA]
      exact invokeFactory_single_param_fail (resolve (fuel + 1)) ⟨tA, ""⟩ fA tB
        none [tB, tA] c c _ hinsA hinner
    have hA : resolve (fuel + 1 + 1) tA "" none [tB] c =
        (.fail (.resolutionFailed tA (.circularDependency [tB, tA, tB])), c) :=
      resolve_fail_wrap (fuel + 1) tA "" none [tB] c c rA _ hregA (by simp [hAB])
        hiA hs1A (hs2 rA ⟨tA, ""⟩) hinvA
    have hinvB : invokeFactory (resolve (fuel + 1 + 1)) ⟨tB, ""⟩ rB.factory
        none [tB] c =
        (.fail (.resolutionFailed tA (.circularDependency [tB, tA, tB])), c) := by
      rw [hfB]
      exact invokeFactory_single_param_fail (resolve (fuel + 1 + 1)) ⟨tB, ""⟩ fB tA
        none [tB] c c _ hinsB hA
    exact resolve_fail_wrap (fuel + 1 + 1) tB "" none [] c c rB _ hregB (by simp)
      hiB hs1B (hs2 rB ⟨tB, ""⟩) hinvB

/-- The condition under which C6 claims `Register` rejects a factory:
not a function, zero results, more than two results, an incompatible
first result type, or a non-error-shaped second result. -/
def invalidFactoryCond (env : TypeEnv) (targetType : Nat) : Option GoFunc → Bool
  | none => true
  | some f =>
    (f.outs.length == 0) ||
    (decide (2 < f.outs.length)) ||
    (!(env.assignableTo (f.outs.headD 0) targetType ||
       (env.isInterface targetType && env.implementsT (f.outs.headD 0) targetType))) ||
    ((f.outs.length == 2) && !env.implementsError (f.outs.getD 1 0))

theorem validateFactory_isSome (env : TypeEnv) (t : Nat) (fopt : Option GoFunc) :
    (validateFactory env t fopt).isSome = invalidFactoryCond env t fopt := by
  cases fopt with
  | none => rfl
  | some f =>
    simp only [validateFactory, invalidFactoryCond]
    split_ifs with h0 hbad h2 h3 <;> simp_all
    · refine Or.inr ?_
      have hb : 1 < f.outs.length := by omega
      have h22 := h2.2
      rw [List.getElem?_eq_getElem hb, Option.getD_some] at h22
      exact h22
    · exact fun hA => hbad.resolve_left
        (fun h => by rw [hA] at h; exact Bool.noConfusion h)
    · refine Or.inl ?_
      rcases Bool.eq_false_or_eq_true (env.isInterface t) with hB | hB
      exacts [Or.inr (Or.inr (hbad.2 hB)), Or.inr (Or.inl hB)]

/-- C6: `Register` fails — always with an `invalidFactory` error and
with the container unchanged — exactly when the supplied factory is not
a function, returns no value, returns more than two values, has a first
return type neither assignable to the target nor (for an interface
target) implementing it, or has a second return that is not
error-shaped; otherwise it succeeds and inserts the registration built
from the options under `(type, name)`. -/
theorem C6_register_validation (env : TypeEnv) (c : Container) (t : Nat)
    (fopt : Option GoFunc) (opts : List RegOption) :
    ((Register env c t fopt opts).1.isSome = invalidFactoryCond env t fopt) ∧
    ((Register env c t fopt opts).1.isSome = true →
      (Register env c t fopt opts).2 = c) ∧
    (∀ e, (Register env c t fopt opts).1 = some e →
      ∃ typ msg, e = .invalidFactory typ msg) ∧
    ((Register env c t fopt opts).1 = none →
      (Register env c t fopt opts).2 =
        { c with
            registrations := ains c.registrations
              ⟨t, (applyOpts (regBase t fopt) opts).name⟩
              (applyOpts (regBase t fopt) opts) }) := by
  have hform : ∀ e, validateFactory env t fopt = some e →
      ∃ typ msg, e = .invalidFactory typ msg := by
    intro e he
    cases fopt with
    | none =>
      simp only [validateFactory] at he
      injection he with he
      exact ⟨t, _, he.symm⟩
    | some f =>
      simp only [validateFactory] at he
      split at he
      · injection he with he; exact ⟨t, _, he.symm⟩
      · split at he
        · injection he with he; exact ⟨t, _, he.symm⟩
        · split at he
          · injection he with he; exact ⟨t, _, he.symm⟩
          · split at he
            · injection he with he; exact ⟨t, _, he.symm⟩
            · cases he
  cases hval : validateFactory env t fopt with
  | some e =>
    refine ⟨?_, ?_, ?_, ?_⟩
    · rw [← validateFactory_isSome]
      simp [Register, hval]
    · intro _; simp [Register, hval]
    · intro e' he'
      simp only [Register, hval] at he'
      injection he' with he'
      exact hform e' (by rw [hval, he'])
    · intro h; simp [Register, hval] at h
  | none =>
    refine ⟨?_, ?_, ?_, ?_⟩
    · rw [← validateFactory_isSome]
      simp [Register, hval]
    · intro h; simp [Register, hval] at h
    · intro e' he'
      simp [Register, hval] at he'
    · intro _; simp [Register, hval]

/-- A successful factory invocation on the miss path yields the created
value, stored per the lifetime policy. -/
theorem resolve_invoke_ok (fuel t : Nat) (n : String) (sc : Option Nat) (ch : List Nat)
    (c c₁ : Container) (reg : Registration) (v : Value)
    (hreg : alook c.registrations ⟨t, n⟩ = some reg)
    (hch : t ∉ ch) (hinst : reg.inst = Value.nilV)
    (hs1 : (if reg.lifetime = .Singleton then alook c.singletons ⟨t, n⟩ else none) = none)
    (hs2 : (if reg.lifetime = .Scoped then
             sc.bind (fun sid => scopeGet c sid ⟨t, n⟩) else none) = none)
    (hinv : invokeFactory (resolve fuel) ⟨t, n⟩ reg.factory sc (ch ++ [t]) c =
      (.ok v, c₁)) :
    resolve (fuel + 1) t n sc ch c =
      (.ok v,
       match reg.lifetime with
       | .Singleton => { c₁ with singletons := ains c₁.singletons ⟨t, n⟩ v }
       | .Scoped =>
         match sc with
         | some sid => scopeSet c₁ sid ⟨t, n⟩ v
         | none => c₁
       | .Transient => c₁) := by
  simp only [resolve, hreg, if_neg hch, hinst, ne_eq, not_true_eq_false, if_false,
    hs1, hs2, hinv]
  cases sc <;> rfl

/-- C8: `Clear` empties the registry, the singleton cache and the scope
table in the one operation, so `Has`/`HasNamed` is false for every key
afterwards; re-registering a singleton with a fresh-object factory and
resolving it runs the factory again and yields an object allocated
after the clear — distinct from any instance that was cached before the
clear. -/
theorem C8_clear_resets (env : TypeEnv) (c : Container) :
    (Clear c).registrations = [] ∧
    (Clear c).singletons = [] ∧
    (Clear c).scopes = [] ∧
    (∀ t n, HasNamed (Clear c) t n = false) ∧
    (∀ (t retT : Nat) (g : GoFunc) (e? : Option GoError) (c₁ : Container),
      g.ins = [] → (∀ args id, g.call args id = [Value.obj id]) →
      g.outs = [retT] → env.assignableTo retT t = true →
      Register env (Clear c) t (some g) [RegOption.asSingleton] = (e?, c₁) →
      e? = none ∧
      (∀ fuel, (resolve (fuel + 1) t "" none [] c₁).1 = .ok (Value.obj c.nextId)) ∧
      (∀ v i, alook c.singletons ⟨t, ""⟩ = some v → v = Value.obj i → i < c.nextId →
        Value.obj c.nextId ≠ v)) := by
  refine ⟨rfl, rfl, rfl, ?_, ?_⟩
  · intro t n; simp [HasNamed, Clear]
  · intro t retT g e? c₁ hins hcall houts hassign hrun
    have hval : validateFactory env t (some g) = none := by
      simp [validateFactory, houts, hassign]
    simp only [Register, hval] at hrun
    injection hrun with h1 h2
    refine ⟨h1.symm, ?_, ?_⟩
    · intro fuel
      have hreg1 : alook c₁.registrations ⟨t, ""⟩ =
          some (applyOpts (regBase t (some g)) [RegOption.asSingleton]) := by
        rw [← h2]; simp [Clear, ains]; rfl
      have hinv : invokeFactory (resolve fuel) ⟨t, ""⟩
          (applyOpts (regBase t (some g)) [RegOption.asSingleton]).factory none
          (([] : List Nat) ++ [t]) c₁ =
          (.ok (Value.obj c.nextId),
           { c₁ with nextId := c₁.nextId + 1, callLog := ⟨t, ""⟩ :: c₁.callLog }) := by
        have hfac : (applyOpts (regBase t (some g)) [RegOption.asSingleton]).factory =
            some g := by rfl
        have hnid : c₁.nextId = c.nextId := by rw [← h2]; rfl
        rw [hfac]
        simp only [invokeFactory, hins, resolveParams, List.any_nil, hcall, hnid,
          List.length_cons, List.length_nil, Bool.false_eq_true, if_false]
        simp
      have hrun2 := resolve_invoke_ok fuel t "" none [] c₁ _ _ _ hreg1 (by simp)
        rfl (by rw [← h2]; simp [Clear]) (by simp) hinv
      rw [hrun2]
    · intro v i hv hvi hlt
      subst hvi
      intro hcontra
      injection hcontra with hcontra
      omega

/-- A factory whose first result is always a non-nil object. -/
def GoodFactory (f : GoFunc) : Prop :=
  ∀ args id, ∃ i rest, f.call args id = Value.obj i :: rest

/-- Container states in which resolution cannot hit a panic path:
every factory-backed registration has a factory producing a non-nil
first result whose second result slot, when it has one, is of a
nilable Kind (so `IsNil` is defined on it), and the caches hold no nil
value. -/
structure SafeState (c : Container) : Prop where
  regs : ∀ k reg, alook c.registrations k = some reg → reg.inst = Value.nilV →
    ∃ f, reg.factory = some f ∧ GoodFactory f ∧
      ∀ args id, (f.call args id).length = 2 → f.sndNilable = true
  sing : ∀ k v, alook c.singletons k = some v → v ≠ Value.nilV
  heap : ∀ sid k v, scopeGet c sid k = some v → v ≠ Value.nilV

theorem SafeState.singInsert {c : Container} (hs : SafeState c) (key : RegKey)
    (v : Value) (hv : v ≠ Value.nilV) :
    SafeState { c with singletons := ains c.singletons key v } := by
  refine ⟨hs.regs, ?_, hs.heap⟩
  intro k w hw
  rw [show ains c.singletons key v = (key, v) :: c.singletons from rfl,
    alook_cons] at hw
  by_cases hk : key = k
  · rw [if_pos hk] at hw; injection hw with hw; rw [← hw]; exact hv
  · rw [if_neg hk] at hw; exact hs.sing k w hw

theorem SafeState.scopedInsert {c : Container} (hs : SafeState c) (sid : Nat)
    (key : RegKey) (v : Value) (hv : v ≠ Value.nilV) :
    SafeState (scopeSet c sid key v) := by
  refine ⟨hs.regs, hs.sing, ?_⟩
  intro sid' k w hw
  by_cases hsid : sid = sid'
  · subst hsid
    rw [scopeGet_scopeSet_same] at hw
    by_cases hk : key = k
    · rw [if_pos hk] at hw; injection hw with hw; rw [← hw]; exact hv
    · rw [if_neg hk] at hw; exact hs.heap sid k w hw
  · rw [scopeGet_congr sid' k (scopeHeap_scopeSet_other c sid key v sid' hsid)] at hw
    exact hs.heap sid' k w hw

theorem SafeState.bump {c : Container} (hs : SafeState c) (key : RegKey) :
    SafeState { c with nextId := c.nextId + 1, callLog := key :: c.callLog } :=
  ⟨hs.regs, hs.sing, hs.heap⟩

theorem resolveParams_safe
    (res : Nat → String → Option Nat → List Nat → Container → Outcome Value × Container)
    (hres : ∀ p n sc ch c r c', SafeState c → res p n sc ch c = (r, c') →
      r ≠ .panicked ∧ (∀ v, r = .ok v → v ≠ Value.nilV) ∧ SafeState c') :
    ∀ (ps : List Nat) (sc : Option Nat) (ch : List Nat) (c : Container)
      (r : Outcome (List Value)) (c' : Container),
      SafeState c → resolveParams res ps sc ch c = (r, c') →
      r ≠ .panicked ∧ (∀ vs, r = .ok vs → ∀ v ∈ vs, v ≠ Value.nilV) ∧ SafeState c' := by
  intro ps
  induction ps with
  | nil =>
    intro sc ch c r c' hs hrun
    simp only [resolveParams] at hrun
    injection hrun with h1 h2
    subst h2
    refine ⟨by rw [← h1]; simp, ?_, hs⟩
    intro vs hvs
    rw [← h1] at hvs
    injection hvs with hvs
    subst hvs
    intro v hv
    cases hv
  | cons p ps ih =>
    intro sc ch c r c' hs hrun
    rcases hr1 : res p "" sc ch c with ⟨r1, c1⟩
    have h1 := hres p "" sc ch c r1 c1 hs hr1
    cases r1 with
    | ok v =>
      rcases hr2 : resolveParams res ps sc ch c1 with ⟨r2, c2⟩
      have h2 := ih sc ch c1 r2 c2 h1.2.2 hr2
      cases r2 with
      | ok vs =>
        simp only [resolveParams, hr1, hr2] at hrun
        injection hrun with ha hb
        subst hb
        refine ⟨by rw [← ha]; simp, ?_, h2.2.2⟩
        intro vs' hvs'
        rw [← ha] at hvs'
        injection hvs' with hvs'
        subst hvs'
        intro w hw
        rcases List.mem_cons.mp hw with hw | hw
        · rw [hw]; exact h1.2.1 v rfl
        · exact h2.2.1 vs rfl w hw
      | fail e =>
        simp only [resolveParams, hr1, hr2] at hrun
        injection hrun with ha hb
        subst hb
        refine ⟨by rw [← ha]; simp, ?_, h2.2.2⟩
        intro vs' hvs'
        rw [← ha] at hvs'
        cases hvs'
      | panicked => exact absurd rfl (h2.1)
      | outOfFuel =>
        simp only [resolveParams, hr1, hr2] at hrun
        injection hrun with ha hb
        subst hb
        refine ⟨by rw [← ha]; simp, ?_, h2.2.2⟩
        intro vs' hvs'
        rw [← ha] at hvs'
        cases hvs'
    | fail e =>
      simp only [resolveParams, hr1] at hrun
      injection hrun with ha hb
      subst hb
      refine ⟨by rw [← ha]; simp, ?_, h1.2.2⟩
      intro vs' hvs'
      rw [← ha] at hvs'
      cases hvs'
    | panicked => exact absurd rfl (h1.1)
    | outOfFuel =>
      simp only [resolveParams, hr1] at hrun
      injection hrun with ha hb
      subst hb
      refine ⟨by rw [← ha]; simp, ?_, h1.2.2⟩
      intro vs' hvs'
      rw [← ha] at hvs'
      cases hvs'

/-- In a safe state a resolution never panics, never returns a nil
interface value, and preserves safety. -/
theorem resolve_safe : ∀ (fuel t : Nat) (n : String) (sc : Option Nat) (ch : List Nat)
    (c : Container) (r : Outcome Value) (c' : Container),
    SafeState c → resolve fuel t n sc ch c = (r, c') →
    r ≠ .panicked ∧ (∀ v, r = .ok v → v ≠ Value.nilV) ∧ SafeState c' := by
  intro fuel
  induction fuel with
  | zero =>
    intro t n sc ch c r c' hs hrun
    simp only [resolve] at hrun
    injection hrun with h1 h2
    subst h2
    refine ⟨by rw [← h1]; simp, ?_, hs⟩
    intro v hv
    rw [← h1] at hv
    cases hv
  | succ fuel ih =>
    intro t n sc ch c r c' hs hrun
    cases hreg : alook c.registrations ⟨t, n⟩ with
    | none =>
      simp only [resolve, hreg] at hrun
      injection hrun with h1 h2
      subst h2
      refine ⟨by rw [← h1]; simp, ?_, hs⟩
      intro v hv
      rw [← h1] at hv
      cases hv
    | some reg =>
      by_cases hch : t ∈ ch
      · simp only [resolve, hreg, if_pos hch] at hrun
        injection hrun with h1 h2
        subst h2
        refine ⟨by rw [← h1]; simp, ?_, hs⟩
        intro v hv
        rw [← h1] at hv
        cases hv
      · by_cases hinst : reg.inst = Value.nilV
        case neg =>
          have hhit := resolve_inst_hit fuel t n sc ch c reg hreg hch hinst
          rw [hrun] at hhit
          injection hhit with h1 h2
          subst h2
          refine ⟨by rw [h1]; simp, ?_, hs⟩
          intro v hv
          rw [h1] at hv
          injection hv with hv
          rw [← hv]
          exact hinst
        case pos =>
          cases hs1 : (if reg.lifetime = .Singleton then alook c.singletons ⟨t, n⟩
              else none) with
          | some v =>
            have hvnil : v ≠ Value.nilV := by
              by_cases hl : reg.lifetime = .Singleton
              · rw [if_pos hl] at hs1
                exact hs.sing ⟨t, n⟩ v hs1
              · rw [if_neg hl] at hs1
                cases hs1
            simp only [resolve, hreg, if_neg hch, hinst, ne_eq, not_true_eq_false,
              if_false, hs1] at hrun
            injection hrun with h1 h2
            subst h2
            refine ⟨by rw [← h1]; simp, ?_, hs⟩
            intro w hw
            rw [← h1] at hw
            injection hw with hw
            rw [← hw]
            exact hvnil
          | none =>
            cases hs2 : (if reg.lifetime = .Scoped then
                sc.bind (fun sid => scopeGet c sid ⟨t, n⟩) else none) with
            | some v =>
              have hvnil : v ≠ Value.nilV := by
                by_cases hl : reg.lifetime = .Scoped
                · rw [if_pos hl] at hs2
                  rcases Option.bind_eq_some.mp hs2 with ⟨sid, hsid, hget⟩
                  exact hs.heap sid ⟨t, n⟩ v hget
                · rw [if_neg hl] at hs2
                  cases hs2
              simp only [resolve, hreg, if_neg hch, hinst, ne_eq, not_true_eq_false,
                if_false, hs1, hs2] at hrun
              injection hrun with h1 h2
              subst h2
              refine ⟨by rw [← h1]; simp, ?_, hs⟩
              intro w hw
              rw [← h1] at hw
              injection hw with hw
              rw [← hw]
              exact hvnil
            | none =>
              obtain ⟨g, hg, hgood, hsnd⟩ := hs.regs ⟨t, n⟩ reg hreg hinst
              rcases hp : resolveParams (resolve fuel) g.ins sc (ch ++ [t]) c
                with ⟨rp, c1⟩
              have hps := resolveParams_safe (resolve fuel)
                (fun p n sc ch c r c' h hr => ih p n sc ch c r c' h hr)
                g.ins sc (ch ++ [t]) c rp c1 hs hp
              cases rp with
              | ok args =>
                have hnon : args.any (fun a => a = Value.nilV) = false := by
                  cases hany : args.any (fun a => a = Value.nilV) with
                  | false => rfl
                  | true =>
                    rcases List.any_eq_true.mp hany with ⟨x, hx, hxnil⟩
                    exact absurd (of_decide_eq_true hxnil) (hps.2.1 args rfl x hx)
                obtain ⟨i, rest, hcr⟩ := hgood args c1.nextId
                have hpk : ¬((g.call args c1.nextId).length = 2 ∧
                    g.sndNilable = false) := by
                  rintro ⟨hl2, hf⟩
                  rw [hsnd args c1.nextId hl2] at hf
                  cases hf
                by_cases he2 : (g.call args c1.nextId).length = 2 ∧
                    (g.call args c1.nextId).getD 1 .nilV ≠ .nilV
                · simp only [resolve, hreg, if_neg hch, hinst, ne_eq, not_true_eq_false,
                    if_false, hs1, hs2, invokeFactory, hg, hp, hnon, Bool.false_eq_true,
                    hcr, List.length_cons, Nat.succ_ne_zero] at hrun
                  rw [hcr] at he2 hpk
                  rw [if_neg (by simpa using hpk)] at hrun
                  rw [if_pos (by simpa using he2)] at hrun
                  simp only at hrun
                  injection hrun with h1 h2
                  subst h2
                  refine ⟨by rw [← h1]; simp, ?_, (hps.2.2).bump ⟨t, n⟩⟩
                  intro v hv
                  rw [← h1] at hv
                  cases hv
                · simp only [resolve, hreg, if_neg hch, hinst, ne_eq, not_true_eq_false,
                    if_false, hs1, hs2, invokeFactory, hg, hp, hnon, Bool.false_eq_true,
                    hcr, List.length_cons, Nat.succ_ne_zero] at hrun
                  rw [hcr] at he2 hpk
                  rw [if_neg (by simpa using hpk)] at hrun
                  rw [if_neg (by simpa using he2)] at hrun
                  simp only [List.headD_cons] at hrun
                  have hsafe2 : SafeState
                      { c1 with
                          nextId := c1.nextId + 1
                          callLog := ⟨t, n⟩ :: c1.callLog } := (hps.2.2).bump ⟨t, n⟩
                  cases hl : reg.lifetime with
                  | Transient =>
                    rw [hl] at hrun
                    simp only at hrun
                    injection hrun with h1 h2
                    subst h2
                    refine ⟨by rw [← h1]; simp, ?_, hsafe2⟩
                    intro v hv
                    rw [← h1] at hv
                    injection hv with hv
                    rw [← hv]
                    simp
                  | Singleton =>
                    rw [hl] at hrun
                    simp only at hrun
                    injection hrun with h1 h2
                    subst h2
                    refine ⟨by rw [← h1]; simp, ?_,
                      hsafe2.singInsert ⟨t, n⟩ (Value.obj i) (by simp)⟩
                    intro v hv
                    rw [← h1] at hv
                    injection hv with hv
                    rw [← hv]
                    simp
                  | Scoped =>
                    rw [hl] at hrun
                    cases hsc : sc with
                    | none =>
                      rw [hsc] at hrun
                      simp only at hrun
                      injection hrun with h1 h2
                      subst h2
                      refine ⟨by rw [← h1]; simp, ?_, hsafe2⟩
                      intro v hv
                      rw [← h1] at hv
                      injection hv with hv
                      rw [← hv]
                      simp
                    | some sid =>
                      rw [hsc] at hrun
                      simp only at hrun
                      injection hrun with h1 h2
                      subst h2
                      refine ⟨by rw [← h1]; simp, ?_,
                        hsafe2.scopedInsert sid ⟨t, n⟩ (Value.obj i) (by simp)⟩
                      intro v hv
                      rw [← h1] at hv
                      injection hv with hv
                      rw [← hv]
                      simp
              | fail e =>
                simp only [resolve, hreg, if_neg hch, hinst, ne_eq, not_true_eq_false,
                  if_false, hs1, hs2, invokeFactory, hg, hp] at hrun
                injection hrun with h1 h2
                subst h2
                refine ⟨by rw [← h1]; simp, ?_, hps.2.2⟩
                intro v hv
                rw [← h1] at hv
                cases hv
              | panicked => exact absurd rfl hps.1
              | outOfFuel =>
                simp only [resolve, hreg, if_neg hch, hinst, ne_eq, not_true_eq_false,
                  if_false, hs1, hs2, invokeFactory, hg, hp] at hrun
                injection hrun with h1 h2
                subst h2
                refine ⟨by rw [← h1]; simp, ?_, hps.2.2⟩
                intro v hv
                rw [← h1] at hv
                cases hv

/-- The registration-level condition delimiting Go's final `result.(T)`
assertion: the target type is an interface (validation then guarantees
every dynamic type reaching the assertion implements it — a factory's
first result slot either is that interface-or-subinterface or a
concrete implementor of it, and all registrations under a key share the
key's target type, so even instances cached under an overwritten
factory qualify), or the registration is instance-based (Go's typing of
`RegisterInstance[T]` makes the instance's dynamic type a `T`), or the
factory's first declared result type is exactly the target type (the
dynamic type of a value read from a concrete result slot is that slot's
type).  Outside this condition — a concrete target with a factory whose
first result type is merely assignable to it — `result.(T)` panics on
every successful resolution. -/
def AssertSafe (env : TypeEnv) (c : Container) : Prop :=
  ∀ k reg, alook c.registrations k = some reg →
    env.isInterface k.typ = true ∨
    reg.inst ≠ Value.nilV ∨
    (∃ f, reg.factory = some f ∧ f.outs.headD 0 = k.typ)

/-- A fully permissive type universe for concrete examples. -/
def envAny : TypeEnv := ⟨fun _ _ => true, fun _ => true, fun _ _ => true, fun _ => true⟩

/-- A dependency-free factory producing a fresh object per invocation. -/
def freshFactory : GoFunc := ⟨[], [1], true, fun _ id => [Value.obj id]⟩

/-- A dependency-free factory whose declared result is an interface and
whose body returns the nil interface. -/
def nilFactory : GoFunc := ⟨[], [1], true, fun _ _ => [Value.nilV]⟩

/-- A container with the nil-returning factory registered for type 1. -/
def cNilFactory : Container := (Register envAny New 1 (some nilFactory) []).2

/-- A two-result factory whose declared second result type is a struct
kind implementing `error` (so `validateFactory` accepts it, but
`IsNil` is not defined on it). -/
def structErrFactory : GoFunc := ⟨[], [1, 9], false, fun _ id => [Value.obj id, Value.obj 0]⟩

def cStructErr : Container := (Register envAny New 1 (some structErrFactory) []).2

/-- The `IsNil` panic path is live in the model: the struct-kind-error
factory passes registration-time validation, yet invoking it panics at
`results[1].IsNil()` before the second result's value is examined. -/
theorem structErrFactory_isNil_panics :
    (Register envAny New 1 (some structErrFactory) []).1 = none ∧
    (ResolveNamed cStructErr 2 1 "").1 = Outcome.panicked := by
  constructor <;> decide

/-- A fresh-factory singleton registration in an empty container. -/
def cSingleton : Container :=
  (Register envAny New 1 (some freshFactory) [RegOption.asSingleton]).2

/-- A fresh-factory scoped registration in an empty container. -/
def cScoped : Container :=
  (Register envAny New 1 (some freshFactory) [RegOption.asScoped]).2

/-- `cScoped` after creating the scope named s1 (its id is 0). -/
def cScopedS : Container := (CreateScope cScoped "s1").2

/-- Factories for the two-type cycle: type 1 needs type 2 and vice versa. -/
def fAB : GoFunc := ⟨[2], [1], true, fun _ id => [Value.obj id]⟩

def fBA : GoFunc := ⟨[1], [2], true, fun _ id => [Value.obj id]⟩

def cCycle : Container :=
  (Register envAny (Register envAny New 1 (some fAB) []).2 2 (some fBA) []).2

/-- A zero-return factory, rejected by validation. -/
def zeroRetFactory : GoFunc := ⟨[], [], true, fun _ _ => []⟩

/-- `cSingleton` after its singleton has been resolved and cached. -/
def cResolved : Container := (resolve 1 1 "" none [] cSingleton).2

/-- `cResolved` after re-registering type 1 with a new singleton factory
without clearing: the old cached instance is still in the cache. -/
def cStale : Container :=
  (Register envAny cResolved 1 (some freshFactory) [RegOption.asSingleton]).2

theorem C1_register_instance_witness :
    Value.obj 7 ≠ Value.nilV ∧
    alook (RegisterInstance New 1 (Value.obj 7) []).singletons ⟨1, ""⟩ =
      some (Value.obj 7) :=
  ⟨by decide,
   (C1_register_instance New 1 (Value.obj 7) [] _ ⟨1, ""⟩ _
     (by decide) rfl rfl rfl).1⟩

theorem C2_singleton_caching_witness :
    alook (resolve 1 1 "" none [] cSingleton).2.singletons ⟨1, ""⟩ =
      some (Value.obj 0) :=
  (C2_singleton_caching 0 1 "" cSingleton _ _ (Value.obj 0) rfl rfl rfl rfl).1

theorem C3_scoped_partitioning_witness :
    scopeGet (resolve 1 1 "" (some 0) [] cScopedS).2 0 ⟨1, ""⟩ =
      some (Value.obj 1) :=
  (C3_scoped_partitioning 0 1 "" cScopedS _ _ 0 (Value.obj 1) rfl rfl rfl rfl).1

theorem C4_scoped_without_scope_witness :
    kcount ⟨1, ""⟩ (resolve 1 1 "" none [] cScoped).2.callLog =
      kcount ⟨1, ""⟩ cScoped.callLog + 1 :=
  (C4_scoped_without_scope 0 1 "" cScoped _ _ _ rfl rfl rfl rfl).1
    (Value.obj 0) rfl

theorem C5_cycle_detection_witness :
    resolve 3 1 "" none [] cCycle =
      (.fail (.resolutionFailed 1 (.resolutionFailed 2
        (.circularDependency [1, 2, 1]))), cCycle) :=
  (C5_cycle_detection 0 1 2 cCycle _ _ _ _ (by decide) rfl rfl rfl rfl rfl rfl
    rfl rfl (fun _ => rfl) (fun _ => rfl)).1

theorem C6_register_validation_witness :
    (Register envAny New 1 (some zeroRetFactory) []).1.isSome = true :=
  ((C6_register_validation envAny New 1 (some zeroRetFactory) []).1).trans
    (by decide)

theorem C7_reregistration_keeps_stale_cache_witness :
    resolve 1 1 "" none [] cStale = (.ok (Value.obj 0), cStale) :=
  (C7_reregistration_keeps_stale_cache envAny cResolved cStale 1
    (some freshFactory) [RegOption.asSingleton] none rfl).2.2.2.1
    _ (Value.obj 0) 0 rfl rfl rfl rfl

theorem C8_clear_resets_witness :
    (resolve 1 1 "" none []
      ((Register envAny (Clear cResolved) 1 (some freshFactory)
        [RegOption.asSingleton]).2)).1 = .ok (Value.obj 1) :=
  ((C8_clear_resets envAny cResolved).2.2.2.2 1 1 freshFactory none _
    rfl (fun _ _ => rfl) rfl rfl rfl).2.1 0

theorem C10_resolution_frame_witness :
    (ResolveNamed New 1 0 "").2.registrations = New.registrations :=
  (C10_resolution_frame New 1 0 "" 0).1.1

end DI
